import Mathlib

/-!
# Verification of the `traffic` repository

Shallow embedding of the two applications described by the repository's
specification:

* the traffic-planner core (Next-Occurrence Resolver, Time-Slot Grid
  Builder, Matrix Assembly) — this code is not present under `src/`
  (only the tissue-culture lab tracker `src/traffic.py` is), so these
  components are modelled from the specification's algorithm text;
* the tissue-culture lab tracker `src/traffic.py` — its SQLite helper
  functions and the Statistics page's "Total Explants Over Time"
  pipeline are embedded directly from the Python source.

Time is measured in minutes.  A calendar instant is a natural number of
minutes since an epoch that falls on a Monday at 00:00; a day therefore
has 1440 minutes and weekday indices follow the spec's convention
0 = Monday … 6 = Sunday.  Calendar dates (for the lab tracker) are
natural day numbers.
-/

namespace Traffic

/-! ## Definitions: Next-Occurrence Resolver (spec §4.1) -/

/-- Minutes in one day. -/
def minutesPerDay : Nat := 1440

/-- Weekday index (0 = Monday … 6 = Sunday) of an instant `t`, given the
epoch is a Monday midnight. -/
def weekdayOf (t : Nat) : Nat := t / minutesPerDay % 7

/-- Time of day, in minutes after midnight, of an instant `t`. -/
def timeOfDayOf (t : Nat) : Nat := t % minutesPerDay

/-- Modelled from the spec: the Next-Occurrence Resolver (spec §4.1) —
this component's code is not under `src/`.  Steps, following the spec's
algorithm: extract `todayWeekday` and the current date from `now`;
`daysAhead = (targetWeekdayIndex − todayWeekdayIndex) mod 7` (written
`(target + 7 − todayWeekday) % 7` in `Nat`, which agrees with the
integer `mod` since `todayWeekday < 7`); build the candidate at
`hour:minute` on `today + daysAhead`; add 7 days when the candidate is
`≤ now`.  The timezone is implicit: all instants are already wall-clock
times in the target timezone. -/
def nextOccurrence (now target hour minute : Nat) : Nat :=
  let todayWeekday := weekdayOf now
  let today := now / minutesPerDay
  let daysAhead := (target + 7 - todayWeekday) % 7
  let candidate := (today + daysAhead) * minutesPerDay + (hour * 60 + minute)
  if candidate ≤ now then candidate + 7 * minutesPerDay else candidate

/-! ## Definitions: Time-Slot Grid Builder (spec §4.2) -/

/-- Modelled from the spec: 12-hour display hour (spec §4.2 label
contract) — hour 0 shows as 12, hours above 12 drop 12. -/
def displayHour (hour : Nat) : Nat :=
  if hour = 0 then 12 else if hour > 12 then hour - 12 else hour

/-- Modelled from the spec: AM for hours 0–11, PM for hours 12–23. -/
def meridiem (hour : Nat) : String := if hour < 12 then "AM" else "PM"

/-- Two-digit rendering of a minute value. -/
def pad2 (n : Nat) : String := if n < 10 then "0" ++ toString n else toString n

/-- Modelled from the spec: the slot label in 12-hour clock format
(spec §4.2) — this component's code is not under `src/`.  The spec's
grid examples label on-the-hour slots without minutes ("7 AM", "12 AM",
"7 PM" in §8), so the minutes part is rendered (as two digits) only
when nonzero. -/
def slotLabel (hour minute : Nat) : String :=
  if minute = 0 then toString (displayHour hour) ++ " " ++ meridiem hour
  else toString (displayHour hour) ++ ":" ++ pad2 minute ++ " " ++ meridiem hour

/-- A label function written from the spec's §4.2 label-format words
(hour 0 → "12 …", hours 1–11 → "H …", hour 12 → "12 …", hours 13–23 →
"(H−12) …"; AM for hours before noon, PM after; minutes as two digits
when rendered), for comparison with `slotLabel`. -/
def specSlotLabel (hour minute : Nat) : String :=
  let d : String :=
    if hour = 0 then "12"
    else if hour ≤ 11 then toString hour
    else if hour = 12 then "12"
    else toString (hour - 12)
  let suffix : String := if hour ≤ 11 then "AM" else "PM"
  if minute = 0 then d ++ " " ++ suffix
  else d ++ ":" ++ pad2 minute ++ " " ++ suffix

/-- A TimeSlot: a display label paired with its time of day (spec §3). -/
structure TimeSlot where
  label : String
  hour : Nat
  minute : Nat
deriving DecidableEq

/-- Modelled from the spec: the Grid Builder's loop over minute counts
(spec §4.2) — this component's code is not under `src/`.  The source
loop's guard is `currentMinutes ≤ stop`; the `0 < step` conjunct records
the loop's termination requirement (the spec requires a positive
`stepMinutes`; with step 0 the loop would never terminate). -/
def slotMinutesFrom (cur stop step : Nat) : List Nat :=
  if _h : cur ≤ stop ∧ 0 < step then
    cur :: slotMinutesFrom (cur + step) stop step
  else []
termination_by stop + 1 - cur
decreasing_by omega

/-- Build the TimeSlot for a minute count. -/
def mkSlot (m : Nat) : TimeSlot := ⟨slotLabel (m / 60) (m % 60), m / 60, m % 60⟩

/-- Modelled from the spec: the Time-Slot Grid Builder (spec §4.2). -/
def buildTimeSlots (startHour endHour stepMinutes : Nat) : List TimeSlot :=
  (slotMinutesFrom (startHour * 60) (endHour * 60) stepMinutes).map mkSlot

/-! ## Definitions: Matrix Assembly (spec §4.3, §5, §7) -/

/-- The seven weekdays (spec §3). -/
inductive Weekday
  | monday
  | tuesday
  | wednesday
  | thursday
  | friday
  | saturday
  | sunday
deriving DecidableEq

/-- Canonical index: 0 = Monday … 6 = Sunday (spec §3). -/
def Weekday.idx : Weekday → Nat
  | .monday => 0
  | .tuesday => 1
  | .wednesday => 2
  | .thursday => 3
  | .friday => 4
  | .saturday => 5
  | .sunday => 6

/-- The canonical Monday→Sunday order (spec §3). -/
def canonicalWeek : List Weekday :=
  [.monday, .tuesday, .wednesday, .thursday, .friday, .saturday, .sunday]

/-- Modelled from the spec: row normalization (spec §4.3) — the final
matrix's rows follow the canonical weekday order restricted to the
selected set, not the caller's selection order.  This component's code
is not under `src/`. -/
def normalizeDays (selected : List Weekday) : List Weekday :=
  canonicalWeek.filter (fun d => selected.contains d)

/-- Modelled from the spec: the sequence of (day, slot) external
queries issued during one build, row-major — day, then slot (spec §5).
This component's code is not under `src/`. -/
def queryLog (selected : List Weekday) (slots : List TimeSlot) :
    List (Weekday × TimeSlot) :=
  (normalizeDays selected).flatMap (fun d => slots.map (fun s => (d, s)))

/-- Modelled from the spec: Matrix Assembly (spec §4.3) — one row per
normalized day, one cell per slot; each cell holds the external
collaborator's answer for its own (day, slot) query, `none` recording a
per-cell ExternalQueryFailure.  This component's code is not under
`src/`. -/
def assembleMatrix (selected : List Weekday) (slots : List TimeSlot)
    (query : Weekday → TimeSlot → Option Nat) :
    List (Weekday × List (Option Nat)) :=
  (normalizeDays selected).map (fun d => (d, slots.map (fun s => query d s)))

/-- Build errors (spec §7 taxonomy): bad hour/minute or an
unresolvable timezone. -/
inductive BuildError
  | invalidInput
deriving DecidableEq

/-- Modelled from the spec: input validation (spec §4.1, §7) — every
slot's hour and minute must be in range and the timezone must
resolve. -/
def validInput (slots : List TimeSlot) (tzResolved : Bool) : Bool :=
  tzResolved && slots.all (fun s => decide (s.hour ≤ 23) && decide (s.minute ≤ 59))

/-- Modelled from the spec: the whole build (spec §7) — `InvalidInput`
fails fast, aborting before any external query is issued; otherwise the
matrix is assembled with a single query attempt per cell and no retry.
Returns the result together with the queries issued.  This component's
code is not under `src/`. -/
def buildSchedule (selected : List Weekday) (slots : List TimeSlot)
    (tzResolved : Bool) (query : Weekday → TimeSlot → Option Nat) :
    Except BuildError (List (Weekday × List (Option Nat))) ×
      List (Weekday × TimeSlot) :=
  if validInput slots tzResolved then
    (Except.ok (assembleMatrix selected slots query), queryLog selected slots)
  else
    (Except.error BuildError.invalidInput, [])

/-! ## Definitions: lab tracker database (src/traffic.py)

Row types follow the SQLite schema created by `init_db`
(src/traffic.py:13-150).  Dates are day numbers, `DATE`/`TEXT` columns
that may be NULL are `Option`s, and `INTEGER` quantities are `Int`
(SQLite integers are signed).  The `created_at` audit column is
omitted: no embedded operation reads it. -/

structure OrderRow where
  id : Nat
  client_name : String
  cultivar : String
  num_plants : Int
  plant_size : String
  order_date : Nat
  delivery_quantity : Option Int
  is_recurring : Int
  completed : Int
  completion_date : Option Nat
  notes : Option String
deriving DecidableEq

structure BatchRow where
  id : Nat
  order_id : Option Nat
  batch_name : String
  num_explants : Int
  explant_type : String
  media_type : String
  hormones : Option String
  additional_elements : Option String
  initiation_date : Nat
  notes : Option String
deriving DecidableEq

structure InfectionRow where
  id : Nat
  batch_id : Nat
  num_infected : Int
  infection_type : String
  identification_date : Nat
  notes : Option String
deriving DecidableEq

structure TransferRow where
  id : Nat
  batch_id : Nat
  parent_transfer_id : Option Nat
  transfer_date : Nat
  explants_in : Int
  explants_out : Int
  new_media : String
  hormones : Option String
  additional_elements : Option String
  multiplication_occurred : Int
  notes : Option String
deriving DecidableEq

structure RootingRow where
  id : Nat
  transfer_id : Option Nat
  batch_id : Nat
  num_placed : Int
  placement_date : Nat
  num_rooted : Option Int
  rooting_date : Option Nat
  notes : Option String
deriving DecidableEq

structure DeliveryRow where
  id : Nat
  order_id : Option Nat
  batch_id : Option Nat
  num_delivered : Int
  delivery_date : Nat
  delivery_method : Option String
  notes : Option String
deriving DecidableEq

/-- The whole database: one list of rows per table. -/
structure DBState where
  orders : List OrderRow
  explant_batches : List BatchRow
  infection_records : List InfectionRow
  transfer_records : List TransferRow
  rooting_records : List RootingRow
  delivery_records : List DeliveryRow
deriving DecidableEq

/-- `delete_order` (src/traffic.py:186-191): a single
`DELETE FROM orders WHERE id = ?` — no other table is touched. -/
def delete_order (db : DBState) (order_id : Nat) : DBState :=
  { db with orders := db.orders.filter (fun r => r.id != order_id) }

/-- `delete_explant_batch` (src/traffic.py:229-238): deletes the
batch's infection, transfer and rooting records by `batch_id`, then the
batch row itself; delivery records and orders are not touched. -/
def delete_explant_batch (db : DBState) (batch_id : Nat) : DBState :=
  { db with
    infection_records :=
      db.infection_records.filter (fun r => r.batch_id != batch_id),
    transfer_records :=
      db.transfer_records.filter (fun r => r.batch_id != batch_id),
    rooting_records :=
      db.rooting_records.filter (fun r => r.batch_id != batch_id),
    explant_batches :=
      db.explant_batches.filter (fun r => r.id != batch_id) }

/-- `get_total_infections_for_batch` (src/traffic.py:264-270):
`SELECT COALESCE(SUM(num_infected), 0) FROM infection_records WHERE
batch_id = ?` — the empty sum is 0. -/
def get_total_infections_for_batch (db : DBState) (batch_id : Nat) : Int :=
  ((db.infection_records.filter (fun r => r.batch_id == batch_id)).map
    (fun r => r.num_infected)).sum

/-- The dictionary returned by `get_batch_summary`
(src/traffic.py:489-494). -/
structure BatchSummary where
  batch : BatchRow
  total_infected : Int
  total_transferred : Int
  healthy : Int
deriving DecidableEq

/-- `get_batch_summary` (src/traffic.py:462-494): `None` when no batch
row matches, otherwise the batch row (the first match) with its summed
infections, summed transfer outputs, and `healthy = num_explants -
total_infected`. -/
def get_batch_summary (db : DBState) (batch_id : Nat) : Option BatchSummary :=
  match db.explant_batches.find? (fun r => r.id == batch_id) with
  | none => none
  | some batch =>
    some { batch := batch
           total_infected := get_total_infections_for_batch db batch_id
           total_transferred :=
             ((db.transfer_records.filter (fun r => r.batch_id == batch_id)).map
               (fun r => r.explants_out)).sum
           healthy :=
             batch.num_explants - get_total_infections_for_batch db batch_id }

/-- A database in which batch 1 has more recorded infections (12) than
initial explants (10). -/
def overInfectedDB : DBState :=
  { orders := []
    explant_batches := [⟨1, none, "B1", 10, "shoot tip", "MS", none, none, 3, none⟩]
    infection_records := [⟨1, 1, 12, "fungal", 8, none⟩]
    transfer_records := []
    rooting_records := []
    delivery_records := [] }

/-! ## Definitions: Statistics — Total Explants Over Time
(src/traffic.py:2374-2441 and, per cultivar, 2648-2691) -/

/-- The dated explant-count events (src/traffic.py:2376-2403): each
batch initiation adds `num_explants`, each infection record subtracts
`num_infected`, each transfer record contributes its net change
`explants_out - explants_in`. -/
def explantEvents (batches : List BatchRow) (infections : List InfectionRow)
    (transfers : List TransferRow) : List (Nat × Int) :=
  batches.map (fun b => (b.initiation_date, b.num_explants))
    ++ infections.map (fun i => (i.identification_date, -i.num_infected))
    ++ transfers.map (fun t => (t.transfer_date, t.explants_out - t.explants_in))

/-- One date's total change: the `groupby(date)` sum of `change`
(src/traffic.py:2414-2418). -/
def dailyChange (events : List (Nat × Int)) (d : Nat) : Int :=
  ((events.filter (fun e => e.1 = d)).map Prod.snd).sum

/-- The distinct event dates in ascending order (pandas `groupby` sorts
its keys; src/traffic.py:2414, 2420). -/
def eventDates (events : List (Nat × Int)) : List Nat :=
  ((events.map Prod.fst).toFinset).sort (· ≤ ·)

/-- The grouped rows with their running cumulative total: after the
grouping, `Cumulative Total` is recomputed as the cumulative sum of the
daily changes in date order (src/traffic.py:2423). -/
def cumulRowsFrom (events : List (Nat × Int)) (acc : Int) :
    List Nat → List (Nat × Int)
  | [] => []
  | d :: ds =>
    (d, acc + dailyChange events d) ::
      cumulRowsFrom events (acc + dailyChange events d) ds

/-- The daily cumulative rows of the chart. -/
def cumulRows (events : List (Nat × Int)) : List (Nat × Int) :=
  cumulRowsFrom events 0 (eventDates events)

/-- The value the chart shows on date `d`: the continuous timeline is
forward-filled from the cumulative rows and missing leading values
become 0 (`merge` + `ffill` + `fillna(0)`, src/traffic.py:2432-2438). -/
def seriesValue (events : List (Nat × Int)) (d : Nat) : Int :=
  (cumulRows events).foldl (fun acc p => if p.1 ≤ d then p.2 else acc) 0

/-- The cultivar of a batch, through the left join of batches with
orders on `order_id` (src/traffic.py:2580); `none` when the batch has
no order or the order is gone. -/
def batchCultivar (orders : List OrderRow) (b : BatchRow) : Option String :=
  match b.order_id with
  | none => none
  | some oid => (orders.find? (fun o => o.id == oid)).map (fun o => o.cultivar)

/-- The events of one cultivar (src/traffic.py:2640-2676): the
cultivar's batches, and the infection and transfer records whose
`batch_id` is among those batches. -/
def cultivarEvents (orders : List OrderRow) (batches : List BatchRow)
    (infections : List InfectionRow) (transfers : List TransferRow)
    (c : String) : List (Nat × Int) :=
  let cbatches := batches.filter (fun b => batchCultivar orders b == some c)
  let ids := cbatches.map (fun b => b.id)
  explantEvents cbatches
    (infections.filter (fun i => ids.contains i.batch_id))
    (transfers.filter (fun t => ids.contains t.batch_id))

/-! ## Theorems: Resolver and Grid Builder -/

/-- C1: for every valid input and every `now`, the Resolver's result is
strictly greater than `now`, falls on the target weekday, and has
exactly the requested time of day. -/
theorem nextOccurrence_future_weekday_time
    (now target hour minute : Nat)
    (htarget : target < 7) (hhour : hour < 24) (hminute : minute < 60) :
    now < nextOccurrence now target hour minute ∧
    weekdayOf (nextOccurrence now target hour minute) = target ∧
    timeOfDayOf (nextOccurrence now target hour minute) = hour * 60 + minute := by
  simp only [nextOccurrence, weekdayOf, timeOfDayOf, minutesPerDay]
  split <;> omega

/-- Witness for C1: the Resolver evaluated at a concrete input
(`now` = Monday 00:00 of week 0, target = Wednesday 9:30). -/
theorem nextOccurrence_future_weekday_time_witness :
    (2 : Nat) < 7 ∧ (9 : Nat) < 24 ∧ (30 : Nat) < 60 ∧
    (0 < nextOccurrence 0 2 9 30 ∧
     weekdayOf (nextOccurrence 0 2 9 30) = 2 ∧
     timeOfDayOf (nextOccurrence 0 2 9 30) = 9 * 60 + 30) :=
  ⟨by decide, by decide, by decide,
    nextOccurrence_future_weekday_time 0 2 9 30 (by decide) (by decide) (by decide)⟩

/-- C2: when `now` is exactly on the target weekday at `hour:minute`,
the Resolver returns the instant exactly 7 days (7·1440 minutes) after
`now`; `now` itself never counts as the next occurrence. -/
theorem nextOccurrence_boundary_week_later
    (now target hour minute : Nat)
    (htarget : target < 7) (hhour : hour < 24) (hminute : minute < 60)
    (hw : weekdayOf now = target)
    (ht : timeOfDayOf now = hour * 60 + minute) :
    nextOccurrence now target hour minute = now + 7 * minutesPerDay := by
  simp only [nextOccurrence, weekdayOf, timeOfDayOf, minutesPerDay] at *
  split <;> omega

/-- Witness for C2: `now` = Tuesday 08:15 of week 0, target Tuesday 08:15. -/
theorem nextOccurrence_boundary_week_later_witness :
    (1 : Nat) < 7 ∧ (8 : Nat) < 24 ∧ (15 : Nat) < 60 ∧
    weekdayOf (1 * minutesPerDay + 495) = 1 ∧
    timeOfDayOf (1 * minutesPerDay + 495) = 8 * 60 + 15 ∧
    nextOccurrence (1 * minutesPerDay + 495) 1 8 15 =
      (1 * minutesPerDay + 495) + 7 * minutesPerDay :=
  ⟨by decide, by decide, by decide, by decide, by decide,
    nextOccurrence_boundary_week_later (1 * minutesPerDay + 495) 1 8 15
      (by decide) (by decide) (by decide) (by decide) (by decide)⟩

/-- The minute-count loop produces an arithmetic progression: start at
`cur`, step by `step`, stopping once past `stop`. -/
theorem slotMinutesFrom_eq_range' (stop step : Nat) (hstep : 0 < step) (cur : Nat) :
    slotMinutesFrom cur stop step =
      if cur ≤ stop then List.range' cur ((stop - cur) / step + 1) step else [] := by
  rw [slotMinutesFrom]
  by_cases hle : cur ≤ stop
  · rw [dif_pos ⟨hle, hstep⟩, if_pos hle,
      slotMinutesFrom_eq_range' stop step hstep (cur + step)]
    by_cases hle2 : cur + step ≤ stop
    · rw [if_pos hle2]
      have hdiv : (stop - cur) / step = (stop - (cur + step)) / step + 1 := by
        rw [show stop - (cur + step) = stop - cur - step by omega]
        exact Nat.div_eq_sub_div hstep (by omega)
      rw [hdiv, List.range'_succ, List.range'_succ, List.range'_succ]
    · rw [if_neg hle2]
      have hdiv : (stop - cur) / step = 0 := Nat.div_eq_of_lt (by omega)
      rw [hdiv]
      simp
  · rw [dif_neg (by omega), if_neg hle]
termination_by stop + 1 - cur
decreasing_by omega

/-- C3: the Grid Builder yields exactly 13 slots "7 AM" … "7 PM" for
7→19 step 60, exactly one slot "12 AM" for 0→0 step 30, and in general
emits the arithmetic progression of minute counts from `startHour*60`
stepping by `stepMinutes`, never past `endHour:00`. -/
theorem buildTimeSlots_spec :
    ((buildTimeSlots 7 19 60).map TimeSlot.label).length = 13 ∧
    ((buildTimeSlots 7 19 60).map TimeSlot.label).head? = some "7 AM" ∧
    ((buildTimeSlots 7 19 60).map TimeSlot.label).getLast? = some "7 PM" ∧
    (buildTimeSlots 0 0 30).map TimeSlot.label = ["12 AM"] ∧
    ∀ s e st, 0 < st →
      (buildTimeSlots s e st =
        if s * 60 ≤ e * 60 then
          (List.range' (s * 60) ((e * 60 - s * 60) / st + 1) st).map mkSlot
        else []) ∧
      ∀ slot ∈ buildTimeSlots s e st, slot.hour * 60 + slot.minute ≤ e * 60 := by
  have key : ∀ s e st, 0 < st →
      buildTimeSlots s e st =
        if s * 60 ≤ e * 60 then
          (List.range' (s * 60) ((e * 60 - s * 60) / st + 1) st).map mkSlot
        else [] := by
    intro s e st hst
    unfold buildTimeSlots
    rw [slotMinutesFrom_eq_range' (e * 60) st hst (s * 60)]
    by_cases h : s * 60 ≤ e * 60 <;> simp [h]
  refine ⟨?_, ?_, ?_, ?_, ?_⟩
  · rw [key 7 19 60 (by decide)]; rfl
  · rw [key 7 19 60 (by decide)]; rfl
  · rw [key 7 19 60 (by decide)]; rfl
  · rw [key 0 0 30 (by decide)]; rfl
  · intro s e st hst
    refine ⟨key s e st hst, ?_⟩
    intro slot hmem
    rw [key s e st hst] at hmem
    by_cases h : s * 60 ≤ e * 60
    · rw [if_pos h] at hmem
      rcases List.mem_map.mp hmem with ⟨m, hm, rfl⟩
      rcases List.mem_range'.mp hm with ⟨i, hi, rfl⟩
      have h1 : st * i ≤ st * ((e * 60 - s * 60) / st) :=
        Nat.mul_le_mul_left st (by omega)
      have h2 : st * ((e * 60 - s * 60) / st) ≤ e * 60 - s * 60 := by
        rw [Nat.mul_comm]
        exact Nat.div_mul_le_self _ _
      simp only [mkSlot]
      omega
    · rw [if_neg h] at hmem
      simp at hmem

/-- Witness for C3: the general grid characterization instantiated at
`startHour = 7, endHour = 19, stepMinutes = 60`. -/
theorem buildTimeSlots_spec_witness :
    (0 : Nat) < 60 ∧
    buildTimeSlots 7 19 60 =
      (if 7 * 60 ≤ 19 * 60 then
        (List.range' (7 * 60) ((19 * 60 - 7 * 60) / 60 + 1) 60).map mkSlot
      else []) :=
  ⟨by decide, (buildTimeSlots_spec.2.2.2.2 7 19 60 (by decide)).1⟩

/-- C4 (amended): on valid inputs the slot label follows the spec's
hour mapping (0→12 AM, 1–11→H AM, 12→12 PM, 13–23→(H−12) PM) with
minutes rendered as two digits when nonzero and omitted when zero; in
particular hour 13 minute 5 gives "1:05 PM" and hour 0 minute 0 gives
"12 AM" (not "12:00 AM"). -/
theorem slotLabel_matches_spec (hour minute : Nat)
    (hh : hour < 24) (hm : minute < 60) :
    slotLabel hour minute = specSlotLabel hour minute ∧
    slotLabel 13 5 = "1:05 PM" ∧ slotLabel 0 0 = "12 AM" := by
  refine ⟨?_, by decide, by decide⟩
  have hd : toString (displayHour hour) =
      (if hour = 0 then "12"
       else if hour ≤ 11 then toString hour
       else if hour = 12 then "12"
       else toString (hour - 12)) := by
    unfold displayHour
    by_cases h0 : hour = 0
    · subst h0; rfl
    · by_cases h11 : hour ≤ 11
      · rw [if_neg h0, if_neg (by omega), if_neg h0, if_pos h11]
      · by_cases h12 : hour = 12
        · subst h12; rfl
        · rw [if_neg h0, if_pos (by omega), if_neg h0, if_neg h11, if_neg h12]
  have hs : meridiem hour = (if hour ≤ 11 then "AM" else "PM") := by
    unfold meridiem
    by_cases h : hour < 12
    · rw [if_pos h, if_pos (by omega)]
    · rw [if_neg h, if_neg (by omega)]
  simp only [slotLabel, specSlotLabel, hd, hs]

/-- C4 counterexample: the label for hour 0 minute 0 is "12 AM", not
the "12:00 AM" the claim states (the grid examples of spec §8 label
on-the-hour slots without a minutes part). -/
theorem slotLabel_midnight_counterexample :
    slotLabel 0 0 = "12 AM" ∧ slotLabel 0 0 ≠ "12:00 AM" := by
  constructor <;> decide

/-- Witness for C4: the amended label contract evaluated at 13:05. -/
theorem slotLabel_matches_spec_witness :
    (13 : Nat) < 24 ∧ (5 : Nat) < 60 ∧
    (slotLabel 13 5 = specSlotLabel 13 5 ∧
     slotLabel 13 5 = "1:05 PM" ∧ slotLabel 0 0 = "12 AM") :=
  ⟨by decide, by decide, slotLabel_matches_spec 13 5 (by decide) (by decide)⟩

/-! ## Theorems: Matrix Assembly -/

/-- Every weekday occurs in the canonical week. -/
theorem canonicalWeek_mem (x : Weekday) : x ∈ canonicalWeek := by
  cases x <;> decide

/-- Normalized rows are exactly the selected days. -/
theorem normalizeDays_mem (selected : List Weekday) (x : Weekday) :
    x ∈ normalizeDays selected ↔ x ∈ selected := by
  simp [normalizeDays, List.contains, canonicalWeek_mem x]

/-- Normalized rows contain no duplicates. -/
theorem normalizeDays_nodup (selected : List Weekday) :
    (normalizeDays selected).Nodup :=
  List.Nodup.filter _ (by decide)

/-- Normalized rows ascend in canonical weekday order. -/
theorem normalizeDays_pairwise (selected : List Weekday) :
    List.Pairwise (fun a b : Weekday => a.idx < b.idx) (normalizeDays selected) :=
  List.Pairwise.filter _ (by decide)

/-- Normalization is insensitive to the caller's selection order. -/
theorem normalizeDays_order_free (selected selected2 : List Weekday)
    (hiff : ∀ x, x ∈ selected ↔ x ∈ selected2) :
    normalizeDays selected = normalizeDays selected2 := by
  unfold normalizeDays
  apply List.filter_congr
  intro x _
  simp only [List.contains, List.elem_eq_mem]
  exact decide_eq_decide.mpr (hiff x)

/-- The query log is the cartesian product of normalized days and
slots. -/
theorem queryLog_eq_product (selected : List Weekday) (slots : List TimeSlot) :
    queryLog selected slots = (normalizeDays selected).product slots := rfl

/-- An element of a duplicate-free list is counted exactly once. -/
theorem nodup_count_one {α : Type} [BEq α] [LawfulBEq α] {l : List α} {a : α}
    (hn : l.Nodup) (ha : a ∈ l) : l.count a = 1 := by
  induction l with
  | nil => simp at ha
  | cons b l ih =>
    rw [List.count_cons]
    rcases List.mem_cons.mp ha with rfl | hal
    · have hb : a ∉ l := (List.nodup_cons.mp hn).1
      simp [List.count_eq_zero.mpr hb]
    · have hne : a ≠ b := by
        rintro rfl
        exact (List.nodup_cons.mp hn).1 hal
      have h1 : l.count a = 1 := ih (List.nodup_cons.mp hn).2 hal
      simp [h1, hne.symm]

/-- One query per selected (day, slot) pair. -/
theorem queryLog_count (selected : List Weekday) (slots : List TimeSlot)
    (hslots : slots.Nodup) (d : Weekday) (s : TimeSlot)
    (hd : d ∈ selected) (hs : s ∈ slots) :
    (queryLog selected slots).count (d, s) = 1 := by
  rw [queryLog_eq_product]
  exact nodup_count_one ((normalizeDays_nodup selected).product hslots)
    (List.mem_product.mpr ⟨(normalizeDays_mem selected d).mpr hd, hs⟩)

/-- The matrix's row keys are the normalized days. -/
theorem assembleMatrix_rows (selected : List Weekday) (slots : List TimeSlot)
    (query : Weekday → TimeSlot → Option Nat) :
    (assembleMatrix selected slots query).map Prod.fst = normalizeDays selected := by
  simp [assembleMatrix, List.map_map, Function.comp_def]

/-- Each matrix row holds, slot by slot in the slot sequence's order,
the answer of its own (day, slot) query. -/
theorem assembleMatrix_cells (selected : List Weekday) (slots : List TimeSlot)
    (query : Weekday → TimeSlot → Option Nat) (d : Weekday)
    (row : List (Option Nat)) (hmem : (d, row) ∈ assembleMatrix selected slots query) :
    row = slots.map (query d) := by
  simp only [assembleMatrix, List.mem_map] at hmem
  obtain ⟨d2, hd2, heq⟩ := hmem
  rw [Prod.mk.injEq] at heq
  obtain ⟨h1, h2⟩ := heq
  subst h1
  exact h2.symm

/-- C5: Matrix Assembly issues exactly one query per selected
(day, slot) pair — 6 queries for 2 days and 3 slots — and the matrix's
rows follow the canonical Monday→Sunday order restricted to the
selected set, whatever order the caller selected them in, with each
row's cells following the slot sequence's order. -/
theorem assembleMatrix_normalization (selected : List Weekday)
    (slots : List TimeSlot) (query : Weekday → TimeSlot → Option Nat)
    (hslots : slots.Nodup) :
    (∀ d s, d ∈ selected → s ∈ slots →
      (queryLog selected slots).count (d, s) = 1) ∧
    (queryLog selected slots).length =
      (normalizeDays selected).length * slots.length ∧
    (queryLog [Weekday.monday, Weekday.wednesday]
      [mkSlot 420, mkSlot 480, mkSlot 540]).length = 6 ∧
    (assembleMatrix selected slots query).map Prod.fst = normalizeDays selected ∧
    List.Pairwise (fun a b : Weekday => a.idx < b.idx) (normalizeDays selected) ∧
    (∀ x : Weekday, x ∈ normalizeDays selected ↔ x ∈ selected) ∧
    (∀ selected2 : List Weekday, (∀ x, x ∈ selected ↔ x ∈ selected2) →
      normalizeDays selected = normalizeDays selected2) ∧
    (∀ d row, (d, row) ∈ assembleMatrix selected slots query →
      row = slots.map (query d)) := by
  refine ⟨queryLog_count selected slots hslots, ?_, by rfl,
    assembleMatrix_rows selected slots query,
    normalizeDays_pairwise selected,
    normalizeDays_mem selected,
    normalizeDays_order_free selected,
    assembleMatrix_cells selected slots query⟩
  rw [queryLog_eq_product]
  exact List.length_product _ _

/-- Witness for C5: 2 selected days (in scrambled order) and 3 distinct
slots give exactly 6 queries. -/
theorem assembleMatrix_normalization_witness :
    ([mkSlot 420, mkSlot 480, mkSlot 540] : List TimeSlot).Nodup ∧
    (queryLog [Weekday.monday, Weekday.wednesday]
      [mkSlot 420, mkSlot 480, mkSlot 540]).length = 6 :=
  ⟨by decide,
    (assembleMatrix_normalization [Weekday.wednesday, Weekday.monday]
      [mkSlot 420, mkSlot 480, mkSlot 540] (fun _ _ => none) (by decide)).2.2.1⟩

/-- C6: invalid input aborts the whole build with `InvalidInput` before
any query is issued; on valid input the build runs to completion with a
single query attempt per cell and no retry, a failed query yielding an
absent value in exactly its own cell while every other cell holds the
answer of its own query. -/
theorem buildSchedule_error_handling (selected : List Weekday)
    (slots : List TimeSlot) (tzResolved : Bool)
    (query : Weekday → TimeSlot → Option Nat) :
    (validInput slots tzResolved = false →
      buildSchedule selected slots tzResolved query =
        (Except.error BuildError.invalidInput, [])) ∧
    (validInput slots tzResolved = true →
      buildSchedule selected slots tzResolved query =
        (Except.ok (assembleMatrix selected slots query),
         queryLog selected slots)) ∧
    (slots.Nodup → ∀ d s, d ∈ selected → s ∈ slots →
      (queryLog selected slots).count (d, s) = 1) ∧
    ∀ d row, (d, row) ∈ assembleMatrix selected slots query →
      row.length = slots.length ∧
      ∀ i, (hi : i < slots.length) → (hri : i < row.length) →
        row[i] = query d slots[i] := by
  refine ⟨?_, ?_, fun hnd d s hd hs => queryLog_count selected slots hnd d s hd hs, ?_⟩
  · intro hbad
    unfold buildSchedule
    rw [hbad]
    rfl
  · intro hgood
    unfold buildSchedule
    rw [hgood]
    rfl
  · intro d row hmem
    have hrow := assembleMatrix_cells selected slots query d row hmem
    subst hrow
    refine ⟨by simp, ?_⟩
    intro i hi hri
    simp

/-! ## Theorems: lab tracker CRUD -/

/-- C8: `delete_explant_batch b` removes exactly the batch row with id
`b` and the infection, transfer and rooting rows with `batch_id = b`,
while delivery records (even those referencing batch `b`) and orders
are left unchanged. -/
theorem delete_explant_batch_frame (db : DBState) (b : Nat) :
    (∀ r : BatchRow, r ∈ (delete_explant_batch db b).explant_batches ↔
      r ∈ db.explant_batches ∧ r.id ≠ b) ∧
    (∀ r : InfectionRow, r ∈ (delete_explant_batch db b).infection_records ↔
      r ∈ db.infection_records ∧ r.batch_id ≠ b) ∧
    (∀ r : TransferRow, r ∈ (delete_explant_batch db b).transfer_records ↔
      r ∈ db.transfer_records ∧ r.batch_id ≠ b) ∧
    (∀ r : RootingRow, r ∈ (delete_explant_batch db b).rooting_records ↔
      r ∈ db.rooting_records ∧ r.batch_id ≠ b) ∧
    (delete_explant_batch db b).delivery_records = db.delivery_records ∧
    (delete_explant_batch db b).orders = db.orders := by
  refine ⟨?_, ?_, ?_, ?_, rfl, rfl⟩ <;> intro r <;>
    simp [delete_explant_batch, List.mem_filter]

/-- C9: `delete_order` removes exactly the matching orders row; batches
(including any whose `order_id` references the deleted order, which
therefore dangles) and every other table are left unchanged. -/
theorem delete_order_frame (db : DBState) (oid : Nat) :
    (∀ r : OrderRow, r ∈ (delete_order db oid).orders ↔
      r ∈ db.orders ∧ r.id ≠ oid) ∧
    (delete_order db oid).explant_batches = db.explant_batches ∧
    (delete_order db oid).infection_records = db.infection_records ∧
    (delete_order db oid).transfer_records = db.transfer_records ∧
    (delete_order db oid).rooting_records = db.rooting_records ∧
    (delete_order db oid).delivery_records = db.delivery_records := by
  refine ⟨?_, rfl, rfl, rfl, rfl, rfl⟩
  intro r
  simp [delete_order, List.mem_filter]

/-- C10: `get_batch_summary b` is `None` exactly when no batch row has
id `b`; otherwise `total_infected` is the sum of `num_infected` over
the batch's infection records (0 when there are none) and `healthy` is
the batch's `num_explants` minus `total_infected` — which goes negative
when recorded infections exceed the initial count, as in
`overInfectedDB` (10 explants, 12 infected, healthy −2). -/
theorem get_batch_summary_spec (db : DBState) (b : Nat) :
    (get_batch_summary db b = none ↔
      ∀ r : BatchRow, r ∈ db.explant_batches → r.id ≠ b) ∧
    (∀ s : BatchSummary, get_batch_summary db b = some s →
      s.total_infected = get_total_infections_for_batch db b ∧
      s.total_infected =
        ((db.infection_records.filter (fun r => r.batch_id == b)).map
          (fun r => r.num_infected)).sum ∧
      s.healthy = s.batch.num_explants - s.total_infected) ∧
    (get_batch_summary overInfectedDB 1).map BatchSummary.healthy = some (-2) ∧
    (-2 : Int) < 0 := by
  refine ⟨?_, ?_, by decide, by decide⟩
  · have hnone : get_batch_summary db b = none ↔
        db.explant_batches.find? (fun r => r.id == b) = none := by
      unfold get_batch_summary
      cases db.explant_batches.find? (fun r => r.id == b) <;> simp
    rw [hnone, List.find?_eq_none]
    simp
  · intro s hs
    unfold get_batch_summary at hs
    cases hf : db.explant_batches.find? (fun r => r.id == b) with
    | none =>
      rw [hf] at hs
      exact absurd hs (by simp)
    | some batch =>
      rw [hf] at hs
      have hs2 := Option.some.inj hs
      subst hs2
      exact ⟨rfl, rfl, rfl⟩

/-- Witness for C10: on `overInfectedDB`, batch 2 does not exist (so
the summary is `None`) and batch 1's healthy count is −2. -/
theorem get_batch_summary_spec_witness :
    get_batch_summary overInfectedDB 2 = none ∧
    (get_batch_summary overInfectedDB 1).map BatchSummary.healthy = some (-2) :=
  ⟨(get_batch_summary_spec overInfectedDB 2).1.mpr (by decide),
   (get_batch_summary_spec overInfectedDB 1).2.2.1⟩

/-- Witness for C6: a slot with hour 25 is invalid input, so the build
aborts with `InvalidInput` and the query log stays empty. -/
theorem buildSchedule_error_handling_witness :
    validInput [TimeSlot.mk "25?" 25 0] true = false ∧
    buildSchedule [Weekday.monday] [TimeSlot.mk "25?" 25 0] true
        (fun _ _ => none) =
      (Except.error BuildError.invalidInput, []) :=
  ⟨by decide,
    (buildSchedule_error_handling [Weekday.monday] [TimeSlot.mk "25?" 25 0]
      true (fun _ _ => none)).1 (by decide)⟩

/-! ## Theorems: Total Explants Over Time -/

/-- Sums distribute over a pointwise sum of weights. -/
theorem sum_map_add_fun (T : List Nat) (f g : Nat → Int) :
    (T.map (fun x => f x + g x)).sum = (T.map f).sum + (T.map g).sum := by
  induction T with
  | nil => simp
  | cons a T ih =>
    simp only [List.map_cons, List.sum_cons, ih]
    omega

/-- Summing an indicator weight over a duplicate-free list picks out at
most the one matching element. -/
theorem sum_map_indicator (a : Nat) (v : Int) :
    ∀ T : List Nat, T.Nodup →
      (T.map (fun x => if a = x then v else 0)).sum = if a ∈ T then v else 0 := by
  intro T
  induction T with
  | nil => simp
  | cons b T ih =>
    intro hnd
    have hb : b ∉ T := (List.nodup_cons.mp hnd).1
    have ih2 := ih (List.nodup_cons.mp hnd).2
    simp only [List.map_cons, List.sum_cons, ih2, List.mem_cons]
    by_cases hab : a = b
    · subst hab
      simp [hb]
    · simp [hab]

/-- Prepending one event adds its indicator weight to every date's
daily change. -/
theorem dailyChange_cons (e : Nat × Int) (es : List (Nat × Int)) (x : Nat) :
    dailyChange (e :: es) x = (if e.1 = x then e.2 else 0) + dailyChange es x := by
  unfold dailyChange
  by_cases hx : e.1 = x
  · simp [hx]
  · simp [hx]

/-- Grouping events by date and summing the groups at dates `≤ d`
equals summing the events dated `≤ d` directly, for any duplicate-free
date list covering every event date. -/
theorem sum_grouped_eq_sum_events (d : Nat) :
    ∀ (events : List (Nat × Int)) (S : List Nat), S.Nodup →
      (∀ e ∈ events, e.1 ∈ S) →
      ((S.filter (fun x => x ≤ d)).map (dailyChange events)).sum =
        ((events.filter (fun e => e.1 ≤ d)).map Prod.snd).sum := by
  intro events
  induction events with
  | nil =>
    intro S _ _
    have h0 : ∀ T : List Nat, (T.map (dailyChange [])).sum = 0 := by
      intro T
      induction T with
      | nil => simp
      | cons a T ih =>
        simp only [List.map_cons, List.sum_cons, ih]
        rfl
    simp [h0]
  | cons e es ih =>
    intro S hnd hmem
    have hmem2 : ∀ x ∈ es, x.1 ∈ S := fun x hx => hmem x (List.mem_cons_of_mem e hx)
    have he : e.1 ∈ S := hmem e (List.mem_cons_self e es)
    rw [List.map_congr_left
      (fun x _ => dailyChange_cons e es x :
        ∀ x ∈ S.filter (fun x => x ≤ d), dailyChange (e :: es) x =
          (if e.1 = x then e.2 else 0) + dailyChange es x)]
    rw [sum_map_add_fun (S.filter (fun x => x ≤ d))
      (fun x => if e.1 = x then e.2 else 0) (dailyChange es)]
    rw [ih S hnd hmem2]
    rw [sum_map_indicator e.1 e.2 (S.filter (fun x => x ≤ d)) (hnd.filter _)]
    by_cases hed : e.1 ≤ d
    · have hmemf : e.1 ∈ S.filter (fun x => x ≤ d) :=
        List.mem_filter.mpr ⟨he, by simpa using hed⟩
      rw [if_pos hmemf, List.filter_cons_of_pos (by simpa using hed)]
      simp
    · have hmemf : e.1 ∉ S.filter (fun x => x ≤ d) := by
        intro hc
        exact hed (by simpa using (List.mem_filter.mp hc).2)
      rw [if_neg hmemf, List.filter_cons_of_neg (by simpa using hed)]
      simp

/-- Forward-filling the running cumulative rows over a sorted date list
reads off the sum of the daily changes at dates `≤ d` (on top of the
accumulator), or the fill-in value when no date qualifies. -/
theorem foldl_cumulRowsFrom (events : List (Nat × Int)) (d : Nat) :
    ∀ ds : List Nat, List.Sorted (· ≤ ·) ds → ∀ acc init : Int,
      (cumulRowsFrom events acc ds).foldl
          (fun a p => if p.1 ≤ d then p.2 else a) init =
        if ds.filter (fun x => x ≤ d) = [] then init
        else acc + ((ds.filter (fun x => x ≤ d)).map (dailyChange events)).sum := by
  intro ds
  induction ds with
  | nil =>
    intro _ acc init
    simp [cumulRowsFrom]
  | cons d0 ds ih =>
    intro hsorted acc init
    rw [cumulRowsFrom, List.foldl_cons,
      ih (List.Sorted.of_cons hsorted) (acc + dailyChange events d0) _]
    by_cases h0 : d0 ≤ d
    · rw [List.filter_cons_of_pos (by simpa using h0)]
      by_cases hf : ds.filter (fun x => x ≤ d) = []
      · rw [if_pos hf]
        simp [hf, h0]
      · rw [if_neg hf]
        have hcons : (d0 :: ds.filter (fun x => x ≤ d)) ≠ [] := by simp
        rw [if_neg hcons]
        simp only [List.map_cons, List.sum_cons, h0, if_pos]
        omega
    · have hall : ∀ x ∈ ds, d0 ≤ x := List.rel_of_sorted_cons hsorted
      have hf : ds.filter (fun x => x ≤ d) = [] := by
        rw [List.filter_eq_nil_iff]
        intro x hx
        simp only [decide_eq_true_eq]
        exact fun hc => h0 (le_trans (hall x hx) hc)
      rw [List.filter_cons_of_neg (by simpa using h0), if_pos hf, if_pos hf]
      simp [h0]

/-- Every event's date occurs in the sorted distinct date list. -/
theorem mem_eventDates (events : List (Nat × Int)) (e : Nat × Int)
    (he : e ∈ events) : e.1 ∈ eventDates events := by
  unfold eventDates
  rw [Finset.mem_sort, List.mem_toFinset]
  exact List.mem_map_of_mem Prod.fst he

/-- The chart's forward-filled value on date `d` is the sum of all
event changes dated on or before `d`. -/
theorem seriesValue_eq_sum (events : List (Nat × Int)) (d : Nat) :
    seriesValue events d =
      ((events.filter (fun e => e.1 ≤ d)).map Prod.snd).sum := by
  unfold seriesValue cumulRows
  rw [foldl_cumulRowsFrom events d (eventDates events)
    (Finset.sort_sorted _ _) 0 0]
  by_cases hf : (eventDates events).filter (fun x => x ≤ d) = []
  · rw [if_pos hf]
    have hev : events.filter (fun e => e.1 ≤ d) = [] := by
      rw [List.filter_eq_nil_iff]
      intro e he
      simp only [decide_eq_true_eq]
      intro hc
      have hmem : e.1 ∈ (eventDates events).filter (fun x => x ≤ d) :=
        List.mem_filter.mpr ⟨mem_eventDates events e he, by simpa using hc⟩
      rw [hf] at hmem
      simp at hmem
    rw [hev]
    simp
  · rw [if_neg hf, zero_add]
    exact sum_grouped_eq_sum_events d events (eventDates events)
      (Finset.sort_nodup _ _) (mem_eventDates events)

/-- Summing the second components of a filtered list of (date, weight)
pairs built by mapping equals summing the weights of the filtered
originals. -/
theorem sum_snd_filter_map {α : Type} (l : List α) (dt : α → Nat)
    (w : α → Int) (d : Nat) :
    (((l.map (fun x => (dt x, w x))).filter (fun e => e.1 ≤ d)).map
      Prod.snd).sum = ((l.filter (fun x => dt x ≤ d)).map w).sum := by
  induction l with
  | nil => simp
  | cons x l ih =>
    simp only [List.map_cons]
    by_cases h : dt x ≤ d
    · rw [List.filter_cons_of_pos (by simpa using h),
        List.filter_cons_of_pos (by simpa using h)]
      simp [ih]
    · rw [List.filter_cons_of_neg (by simpa using h),
        List.filter_cons_of_neg (by simpa using h)]
      exact ih

/-- Summing negated weights negates the sum. -/
theorem sum_map_neg_fun {α : Type} (l : List α) (w : α → Int) :
    (l.map (fun x => -w x)).sum = -(l.map w).sum := by
  induction l with
  | nil => simp
  | cons x l ih =>
    simp only [List.map_cons, List.sum_cons, ih]
    omega

/-- C7: the "Total Explants Over Time" chart value at each date `d`
equals the sum over all events dated on or before `d` of
`+num_explants` per batch initiation, `−num_infected` per infection
record and `explants_out − explants_in` per transfer record; between
event dates the forward-filled series is constant; and the per-cultivar
chart applies the same accumulation rule to the cultivar's own
events. -/
theorem totalExplants_cumulative (batches : List BatchRow)
    (infections : List InfectionRow) (transfers : List TransferRow)
    (orders : List OrderRow) (c : String) (d : Nat) :
    (seriesValue (explantEvents batches infections transfers) d =
      ((batches.filter (fun b => b.initiation_date ≤ d)).map
        (fun b => b.num_explants)).sum
      - ((infections.filter (fun i => i.identification_date ≤ d)).map
          (fun i => i.num_infected)).sum
      + ((transfers.filter (fun t => t.transfer_date ≤ d)).map
          (fun t => t.explants_out - t.explants_in)).sum) ∧
    ((∀ e ∈ explantEvents batches infections transfers, e.1 ≠ d + 1) →
      seriesValue (explantEvents batches infections transfers) (d + 1) =
        seriesValue (explantEvents batches infections transfers) d) ∧
    seriesValue (cultivarEvents orders batches infections transfers c) d =
      (((cultivarEvents orders batches infections transfers c).filter
        (fun e => e.1 ≤ d)).map Prod.snd).sum := by
  refine ⟨?_, ?_, seriesValue_eq_sum _ d⟩
  · rw [seriesValue_eq_sum _ d]
    unfold explantEvents
    rw [List.filter_append, List.filter_append, List.map_append,
      List.map_append, List.sum_append, List.sum_append]
    rw [sum_snd_filter_map batches (fun b => b.initiation_date)
      (fun b => b.num_explants) d]
    rw [sum_snd_filter_map infections (fun i => i.identification_date)
      (fun i => -i.num_infected) d]
    rw [sum_snd_filter_map transfers (fun t => t.transfer_date)
      (fun t => t.explants_out - t.explants_in) d]
    rw [sum_map_neg_fun (infections.filter (fun i => i.identification_date ≤ d))
      (fun i => i.num_infected)]
    omega
  · intro hno
    rw [seriesValue_eq_sum _ (d + 1), seriesValue_eq_sum _ d]
    have hfe : (explantEvents batches infections transfers).filter
        (fun e => e.1 ≤ d + 1) =
        (explantEvents batches infections transfers).filter
          (fun e => e.1 ≤ d) := by
      apply List.filter_congr
      intro e he
      have := hno e he
      exact decide_eq_decide.mpr (by omega)
    rw [hfe]

/-- Witness for C7: a single batch of 5 explants initiated on day 0 —
no event falls on day 1, so the series keeps its value there. -/
theorem totalExplants_cumulative_witness :
    ((explantEvents [⟨1, none, "B", 5, "shoot tip", "MS", none, none, 0, none⟩]
        [] []).all (fun e => e.1 ≠ 1)) = true ∧
    seriesValue (explantEvents
        [⟨1, none, "B", 5, "shoot tip", "MS", none, none, 0, none⟩] [] []) 1 =
      seriesValue (explantEvents
        [⟨1, none, "B", 5, "shoot tip", "MS", none, none, 0, none⟩] [] []) 0 :=
  ⟨by decide,
    (totalExplants_cumulative
        [⟨1, none, "B", 5, "shoot tip", "MS", none, none, 0, none⟩]
        [] [] [] "X" 0).2.1 (by decide)⟩

end Traffic
